import Mathlib

/-!
Verification of the urbanist-bots scripts: a shallow embedding in Lean 4 of
the pure logic of the Python sources, with the network, image and social-API
effects supplied as explicit parameters (oracles).  Machine effects such as
HTTP requests and file IO are modelled as data already fetched; exceptions
are modelled with `Option`/`Except`-style results.
-/

namespace UrbanistBots

/-! ## Shared helpers

`humanize.intcomma` groups digits in threes with commas, and
`datetime.datetime.fromtimestamp(ms / 1000)` converts an epoch-milliseconds
value to a calendar date.  The date conversion follows the standard civil
calendar algorithm; the scripts only use the year / ISO date string.
-/

/-- Insert a comma between each group of three digits, working over the
reversed digit list: a comma is emitted before the digit at position i
(0-based from the least significant digit) whenever i is a positive
multiple of 3. -/
def commaRev : Nat → List Char → List Char
  | _, [] => []
  | i, c :: cs =>
    if i ≠ 0 ∧ i % 3 = 0 then ',' :: c :: commaRev (i + 1) cs
    else c :: commaRev (i + 1) cs

/-- Embedding of `humanize.intcomma` on natural numbers: "123456" ↦ "123,456". -/
def intcomma (n : Nat) : String :=
  ⟨(commaRev 0 (toString n).toList.reverse).reverse⟩

/-- Civil date (year, month, day) from days since the Unix epoch
(Howard Hinnant's `civil_from_days` algorithm, as used by C and Python
date libraries). -/
def civilFromDays (z0 : Int) : Int × Nat × Nat :=
  let z := z0 + 719468
  let era : Int := z.fdiv 146097
  let doe : Nat := (z - era * 146097).toNat
  let yoe : Nat := (doe - doe / 1460 + doe / 36524 - doe / 146096) / 365
  let y : Int := (yoe : Int) + era * 400
  let doy : Nat := doe - (365 * yoe + yoe / 4 - yoe / 100)
  let mp : Nat := (5 * doy + 2) / 153
  let d : Nat := doy - (153 * mp + 2) / 5 + 1
  let m : Nat := if mp < 10 then mp + 3 else mp - 9
  (if m ≤ 2 then y + 1 else y, m, d)

/-- Date of `datetime.datetime.fromtimestamp(ms / 1000)`: floor-divide the
epoch milliseconds down to whole days and convert to a civil date. -/
def dateOfMs (ms : Int) : Int × Nat × Nat :=
  civilFromDays ((ms.fdiv 1000).fdiv 86400)

/-- Embedding of `datetime.datetime.fromtimestamp(ms / 1000).year`. -/
def yearOfMs (ms : Int) : Int := (dateOfMs ms).1

/-- Zero-pad a number below 100 to two digits, as Python's date `%m`/`%d`. -/
def pad2 (n : Nat) : String := if n < 10 then "0" ++ toString n else toString n

/-- Zero-pad a year to four digits, as Python's date `%Y`. -/
def pad4 (n : Nat) : String :=
  if n < 10 then "000" ++ toString n
  else if n < 100 then "00" ++ toString n
  else if n < 1000 then "0" ++ toString n
  else toString n

/-- Embedding of `str(datetime.datetime.fromtimestamp(ms / 1000).date())`: an ISO
"YYYY-MM-DD" string. -/
def dateStr (ms : Int) : String :=
  let ymd := dateOfMs ms
  pad4 ymd.1.toNat ++ "-" ++ pad2 ymd.2.1 ++ "-" ++ pad2 ymd.2.2

/-! ## everysalecville: previous-sale formatting -/

/-- The fields of a sales record used by `format_previous_sale`
(`sale["SaleDate"]` is epoch milliseconds, `sale["SaleAmount"]` dollars). -/
structure PrevSaleRec where
  SaleDate : Int
  SaleAmount : Nat
  deriving Repr, DecidableEq

/-- Embedding of `everysalecville.format_previous_sale`. -/
def format_previous_sale (sale : PrevSaleRec) (parcel_count : Nat) : String :=
  let sale_amount := intcomma sale.SaleAmount
  let out := "Last sold in " ++ toString (yearOfMs sale.SaleDate) ++ " for $" ++ sale_amount
  let out := if parcel_count > 1 then out ++ " (" ++ toString parcel_count ++ " parcels)" else out
  out ++ "."

/-! ## everysalecville: business-name heuristic and status formatting -/

/-- The fixed allowlist of institutional owners in `is_probable_business`. -/
def institutions : List String :=
  ["CITY OF CHARLOTTESVILLE",
   "CITY OF CHARLOTTESVILLE & COUNTY OF ALBEMARLE",
   "COUNTY OF ALBEMARLE",
   "THE RECTOR & VISITORS OF THE UNIVERSITY OF VIRGINIA",
   "CHARLOTTESVILLE REDEVELOPMENT & HOUSING AUTHORITY",
   "VELIKY, LC"]

/-- Python's `str.endswith`: a code-point suffix test. -/
def strEndsWith (s suffix : String) : Bool :=
  suffix.toList.isSuffixOf s.toList

/-- Embedding of `everysalecville.is_probable_business` (identical in
`everylotcville`): owner names ending in a business suffix, or in the fixed
allowlist of institutions. -/
def is_probable_business (owner : String) : Bool :=
  strEndsWith owner (" LLC")
    || strEndsWith owner (" LTD")
    || strEndsWith owner (" INC")
    || strEndsWith owner (" CORPORATION")
    || strEndsWith owner (" FOUNDATION")
    || institutions.contains owner

/-- Python 3 `round` on the exact rational num/den: round half to even.
(The source rounds a float quotient; we model the exact rational, which
agrees except for double-rounding at representation limits.) -/
def pyRound (num den : Nat) : Nat :=
  if den = 0 then 0
  else
    let q := num / den
    let r := num % den
    if 2 * r < den then q else if den < 2 * r then q + 1 else q + q % 2

/-- The parcel-details fields (`details["properties"]`) used by
`get_status`.  `Assessment` is a number; the rest are strings. -/
structure ParcelProps where
  StreetNumber : String
  StreetName : String
  Unit : String
  Assessment : Nat
  OwnerName : String
  Zoning : String
  deriving Repr, DecidableEq

/-- The results of the effectful calls made inside
`everysalecville.get_status`, supplied as data: `get_details`,
`get_square_feet`, `get_previous_sale`, and the three
`OverlayClassifier` lookups on the parcel shape. -/
structure StatusEnv where
  detailses : List ParcelProps
  squareFeet : Option Nat
  previousSale : Option PrevSaleRec
  previousParcelCount : Nat
  adcDistrict : Option String
  adcContributing : Bool
  protectedOverlay : Bool
  deriving Repr, DecidableEq

/-- Embedding of `everysalecville.get_status`.  The `assert len(detailses)
== 1` failure is the `.error` case; otherwise the status text and address
are built exactly as in the source, with each f-string expansion written
as explicit concatenation. -/
def get_status (sale : PrevSaleRec) (group_count index : Nat) (env : StatusEnv) :
    Except String (String × String) :=
  match env.detailses with
  | [properties] =>
    let price_per_square_foot : Option String :=
      if group_count = 1 then
        match env.squareFeet with
        | some square_feet =>
          if square_feet ≠ 0 then some (intcomma (pyRound sale.SaleAmount square_feet))
          else none
        | none => none
      else none
    let address := properties.StreetNumber ++ " " ++ properties.StreetName
    let address := if properties.Unit ≠ "" then address ++ " Unit " ++ properties.Unit else address
    let sale_date := dateStr sale.SaleDate
    let sale_amount := intcomma sale.SaleAmount
    let assessment := intcomma properties.Assessment
    let sold_detail :=
      if is_probable_business properties.OwnerName then "sold to " ++ properties.OwnerName
      else "sold"
    let status := address ++ ", " ++ sold_detail ++ " on " ++ sale_date ++ " for $"
      ++ sale_amount ++ ". Zoned " ++ properties.Zoning ++ ", assessed at $" ++ assessment ++ "."
    let status :=
      match price_per_square_foot with
      | some pps => status ++ " $" ++ pps ++ " per square foot."
      | none => status
    let status :=
      if group_count > 1 then
        status ++ " Parcel " ++ toString (index + 1) ++ " of " ++ toString group_count ++ "."
      else
        match env.previousSale with
        | some previous_sale =>
          status ++ " " ++ format_previous_sale previous_sale env.previousParcelCount
        | none => status
    let status :=
      match env.adcDistrict with
      | some adc_district =>
        let adc_status := (adc_district.replace ("ADC District") ("")).trim ++ " ADC"
        let adc_status :=
          if env.adcContributing then adc_status ++ "; contributing structure" else adc_status
        status ++ " " ++ adc_status ++ "."
      | none => status
    let status := if env.protectedOverlay then status ++ " IPP." else status
    .ok (status, address)
  | detailses => .error ("Expected 1 detail record; got " ++ toString detailses.length)

/-! ## everylotcville: previous-sale formatting (the variant that names the
owner) and image compression -/

namespace Everylot

/-- Embedding of `everylotcville.format_previous_sale`: same as the
everysalecville formatter except that it includes the sold-to clause. -/
def format_previous_sale (properties : ParcelProps) (sale : PrevSaleRec)
    (parcel_count : Nat) : String :=
  let sold_detail :=
    if is_probable_business properties.OwnerName then "sold to " ++ properties.OwnerName
    else "sold"
  let out := "Last " ++ sold_detail ++ " in " ++ toString (yearOfMs sale.SaleDate)
    ++ " for $" ++ intcomma sale.SaleAmount
  let out := if parcel_count > 1 then out ++ " (" ++ toString parcel_count ++ " parcels)" else out
  out ++ "."

end Everylot

/-- Embedding of `everysalecville.MAX_IMAGE_SIZE_BYTES` (everylotcville uses `2 ** 20`). -/
def MAX_IMAGE_SIZE_BYTES : Nat := 1000000

/-- The `while quality >= min_quality` loop of `maybe_compress_image`:
`encode q` is the size of the JPEG re-encoding at quality `q` (the
`image.save` call); the result is the size of the returned buffer, or
`none` for the `raise ImageTooLarge()` exit. -/
def compress_loop (encode : Int → Nat) (max_size : Nat) (min_quality quality : Int) :
    Option Nat :=
  if min_quality ≤ quality then
    if encode quality < max_size then some (encode quality)
    else compress_loop encode max_size min_quality (quality - 10)
  else none
  termination_by (quality - min_quality + 10).toNat
  decreasing_by omega

/-- Embedding of `maybe_compress_image` (identical in `everysalecville` and
`everylotcville` up to the default ceiling): buffers are modelled by their
byte sizes.  Returns the size of the returned buffer, or `none` for the
`ImageTooLarge` exception. -/
def maybe_compress_image (encode : Int → Nat) (in_size : Nat) (min_quality : Int)
    (max_size : Nat) : Option Nat :=
  if in_size ≤ max_size then some in_size
  else compress_loop encode max_size min_quality 90

/-! ## everypermitcville: permit message formatting -/

namespace Everypermit

/-- Embedding of `everypermitcville.MAX_POST_LENGTH`. -/
def MAX_POST_LENGTH : Nat := 300

/-- Embedding of `everypermitcville.MAX_MAX_DETAILS`. -/
def MAX_MAX_DETAILS : Nat := 5

/-- Embedding of `everypermitcville.MAX_DETAILS_LENGTH`. -/
def MAX_DETAILS_LENGTH : Nat := 50

/-- The fields of a permit row from the search table used by
`format_message` (`permit["Type"]` and `permit["Sub-Type"]` are not valid
Lean names, so they become `PermitType` and `PermitSubType`). -/
structure Permit where
  ProjectNumber : String
  PermitType : String
  PermitSubType : String
  SiteAddress : String
  deriving Repr, DecidableEq

/-- The `f"{project_number}: {project_type} @ {address}"` heading of a
permit message (the first entry of `message_parts`). -/
def message_header (permit : Permit) : String :=
  let project_type :=
    if permit.PermitSubType ≠ permit.PermitType then
      permit.PermitType ++ "/" ++ permit.PermitSubType
    else permit.PermitType
  permit.ProjectNumber ++ ": " ++ project_type ++ " @ " ++ permit.SiteAddress

/-- The detail block of a permit message: the first `max_details` entries
of the details dict, each value truncated to `MAX_DETAILS_LENGTH`
characters with an ellipsis, plus a final "..." row when entries were cut,
joined with newlines. -/
def detail_message (permit_details : List (String × String)) (max_details : Nat) : String :=
  let shown := permit_details.take max_details
  let detail_items := shown.map (fun kv =>
    let detail_value :=
      if kv.2.length > MAX_DETAILS_LENGTH then kv.2.take MAX_DETAILS_LENGTH ++ "..."
      else kv.2
    kv.1 ++ ": " ++ detail_value)
  let detail_items :=
    if permit_details.length > shown.length then detail_items ++ ["..."] else detail_items
  String.intercalate ("\n") detail_items

/-- Embedding of `everypermitcville.format_message`.  `permit_details` is
the `Permit/License Details` dict as an insertion-ordered association list
with distinct keys, so `list(permit_details.keys())[:max_details]` followed
by lookups is iteration over the first `max_details` pairs.  The source
builds `message_parts` as the heading, then the detail block when
`max_details > 0`, then the permit URL, and joins with blank lines. -/
def format_message (permit : Permit) (permit_details : List (String × String))
    (permit_url : String) (max_details : Nat) : String :=
  let message_parts :=
    if max_details > 0 then
      [message_header permit, detail_message permit_details max_details, permit_url]
    else [message_header permit, permit_url]
  String.intercalate ("\n\n") message_parts


/-- The `while True` message-building loop in `everypermitcville.main`,
parameterised by the current `max_details` value: break with the message
once it fits in `MAX_POST_LENGTH`; when it does not fit and `max_details`
is zero the `assert max_details > 0` fails (`none`); otherwise decrement
and retry. -/
def build_message (permit : Permit) (permit_details : List (String × String))
    (permit_url : String) : Nat → Option String
  | 0 =>
    let message := format_message permit permit_details permit_url 0
    if message.length ≤ MAX_POST_LENGTH then some message else none
  | max_details + 1 =>
    let message := format_message permit permit_details permit_url (max_details + 1)
    if message.length ≤ MAX_POST_LENGTH then some message
    else build_message permit permit_details permit_url max_details

end Everypermit

/-! ## Run models

The `main` loops of `everysalecville` and `everypermitcville`, with the
outcomes of the external calls (status building, publishing) carried on
each record.  A publish attempt is recorded as a `PubCall`; an uncaught
Python exception aborts the run, which the models express with `Except`,
the error value carrying the state at the abort (the shelf is on disk, so
its mutations persist across an abort). -/

/-- One `client.send_images` / `bsky_client.send_post` attempt: the record
key it was made for, the text sent, and whether the call succeeded. -/
structure PubCall where
  key : String
  text : String
  ok : Bool
  deriving Repr, DecidableEq

namespace Everysale

/-- Embedding of the `everysalecville.Post` dataclass; post records are
identified by the order in which they were created. -/
structure Post where
  parcel_number : String
  book_page : String
  post : Nat
  thread_root : Option Nat
  thread_parent : Option Nat
  deriving Repr, DecidableEq

/-- One sales row together with the outcomes of the external calls made
for it: `statusResult` is the outcome of the `get_status` attempt (`none`
when it raises, from a network/parsing failure or the details assert) and
`publishOk` is whether `client.send_images` succeeds.  The image lookups
only contribute media payload and are not modelled. -/
structure SaleItem where
  ParcelNumber : String
  BookPage : String
  SaleAmount : Nat
  statusResult : Option (String × String)
  publishOk : Bool
  deriving Repr, DecidableEq

/-- The mutable state of a run of `everysalecville.main`.  `statusVar`
models the Python local variables `status, address`: they start unbound
(`none`) and keep their previous value when `get_status` raises, because
the `except` clause only logs and does not `continue`.  `counter` issues
post-record identifiers, and `calls` is the trace of publish attempts. -/
structure RunState where
  shelf : List (String × Post)
  counter : Nat
  post_count : Nat
  statusVar : Option (String × String)
  calls : List PubCall
  deriving Repr, DecidableEq

/-- Insert into a sorted list, before the first element it is `le` to:
a stable insertion. -/
def insertSorted (le : α → α → Bool) (a : α) : List α → List α
  | [] => [a]
  | b :: bs => if le a b then a :: b :: bs else b :: insertSorted le a bs

/-- Stable insertion sort, modelling Python's stable `sorted`. -/
def insertionSort (le : α → α → Bool) : List α → List α
  | [] => []
  | a :: as => insertSorted le a (insertionSort le as)

/-- Keys in order of first occurrence, skipping ones already seen. -/
def distinctKeysGo : List String → List String → List String
  | _, [] => []
  | seen, k :: rest =>
    if seen.contains k then distinctKeysGo seen rest
    else k :: distinctKeysGo (k :: seen) rest

/-- Keys in order of first occurrence (Python dict key order). -/
def distinctKeys (keys : List String) : List String := distinctKeysGo [] keys

/-- The `collections.defaultdict(list)` grouping of sales by `BookPage`:
groups in order of first key occurrence, each keeping the original row
order. -/
def groupByBookPage (sales : List SaleItem) : List (List SaleItem) :=
  (distinctKeys (sales.map (fun s => s.BookPage))).map
    (fun k => sales.filter (fun s => s.BookPage == k))

/-- One iteration of the inner `for index, sale in enumerate(sorted_sales)`
loop.  `thread` is the pair `(thread_root, thread_parent)`.  The `.error`
results are the uncaught exceptions: a `NameError` when `status`/`address`
are still unbound after a failed `get_status` (the missing `continue`), and
the `client.send_images` failure. -/
def processSale (st : RunState) (thread : Option Nat × Option Nat) (item : SaleItem) :
    Except RunState (RunState × (Option Nat × Option Nat)) :=
  let key := item.ParcelNumber ++ "::" ++ item.BookPage
  match st.shelf.lookup key with
  | some entry => .ok (st, (entry.thread_root, some entry.post))
  | none =>
    if item.SaleAmount = 0 then .ok (st, thread)
    else
      let st1 :=
        match item.statusResult with
        | some sa => { st with statusVar := some sa }
        | none => st
      match st1.statusVar with
      | none => .error st1
      | some sa =>
        let st2 := { st1 with calls := st1.calls ++ [⟨key, sa.1, item.publishOk⟩] }
        if item.publishOk then
          let resp := st2.counter
          let root := thread.1.getD resp
          let entry : Post := ⟨item.ParcelNumber, item.BookPage, resp, some root, thread.2⟩
          .ok ({ st2 with
                  shelf := (key, entry) :: st2.shelf
                  counter := st2.counter + 1
                  post_count := st2.post_count + 1 },
               (some root, some resp))
        else .error st2

/-- The inner loop over the sorted sales of one group. -/
def processSales (st : RunState) (thread : Option Nat × Option Nat) :
    List SaleItem → Except RunState RunState
  | [] => .ok st
  | item :: rest =>
    match processSale st thread item with
    | .ok (st2, thread2) => processSales st2 thread2 rest
    | .error st2 => .error st2

/-- One group: sort by parcel number (Python `sorted` on strings) and walk
the group with fresh `thread_root, thread_parent = None, None`. -/
def processGroup (st : RunState) (group : List SaleItem) : Except RunState RunState :=
  processSales st (none, none)
    (insertionSort (fun a b => a.ParcelNumber ≤ b.ParcelNumber) group)

/-- The outer loop over the book-page groups. -/
def processGroups (st : RunState) : List (List SaleItem) → Except RunState RunState
  | [] => .ok st
  | g :: gs =>
    match processGroup st g with
    | .ok st2 => processGroups st2 gs
    | .error st2 => .error st2

/-- Embedding of `everysalecville.main`: group the fetched sales by book
page and process each group, starting from the on-disk shelf `shelf0`. -/
def main (shelf0 : List (String × Post)) (sales : List SaleItem) :
    Except RunState RunState :=
  processGroups ⟨shelf0, 0, 0, none, []⟩ (groupByBookPage sales)

end Everysale

/-- The state a run ends in, whether it returned or aborted with an
exception (shelf writes are flushed to disk either way). -/
def endState {σ : Type} : Except σ σ → σ
  | .ok s => s
  | .error s => s

namespace Everypermit

/-- Embedding of the `everypermitcville.Post` dataclass. -/
structure Post where
  permit_id : String
  project_number : String
  deriving Repr, DecidableEq

/-- One permit row with its detail-page data and the outcome of the
`bsky_client.send_post` call.  `Id` is the normalised permit id
(`str(int(float(permit["Id"])))`). -/
structure PermitItem where
  Id : String
  permit : Permit
  details : List (String × String)
  url : String
  publishOk : Bool
  deriving Repr, DecidableEq

/-- The mutable state of a run of `everypermitcville.main`. -/
structure RunState where
  shelf : List (String × Post)
  calls : List PubCall
  deriving Repr, DecidableEq

/-- One iteration of the `for permit in permits` loop.  The `.error`
results are the uncaught exceptions: the `assert max_details > 0` failure
when no detail level fits, and the `send_post` failure. -/
def processPermit (st : RunState) (item : PermitItem) : Except RunState RunState :=
  match st.shelf.lookup item.Id with
  | some _ => .ok st
  | none =>
    match build_message item.permit item.details item.url MAX_MAX_DETAILS with
    | none => .error st
    | some message =>
      let st2 := { st with calls := st.calls ++ [⟨item.Id, message, item.publishOk⟩] }
      if item.publishOk then
        .ok { st2 with
                shelf := (item.Id, ⟨item.Id, item.permit.ProjectNumber⟩) :: st2.shelf }
      else .error st2

/-- The loop over all permits. -/
def processPermits (st : RunState) : List PermitItem → Except RunState RunState
  | [] => .ok st
  | item :: rest =>
    match processPermit st item with
    | .ok st2 => processPermits st2 rest
    | .error st2 => .error st2

/-- Embedding of `everypermitcville.main`, starting from the on-disk shelf
`shelf0`. -/
def main (shelf0 : List (String × Post)) (items : List PermitItem) :
    Except RunState RunState :=
  processPermits ⟨shelf0, []⟩ items

end Everypermit

/-! ## everysalealbmrl: fuzzy grouping of transactions -/

namespace Albemarle

/-- The fields of a transaction row used by the grouping loop in
`everysalealbmrl.main` (`saledate1` as an epoch timestamp). -/
structure Txn where
  saleprice : Int
  saledate1 : Int
  currowner : String
  mapblolot : String
  deriving Repr, DecidableEq

/-- A grouping key: `(row.saleprice, row.saledate1, row.currowner)`. -/
abbrev GroupKey := Int × Int × String

/-- The `post_groups` defaultdict as an insertion-ordered association
list. -/
abbrev Groups := List (GroupKey × List Txn)

/-- Embedding of `post_groups[k].append(row)` for a key already present. -/
def appendToGroup (groups : Groups) (k : GroupKey) (row : Txn) : Groups :=
  groups.map (fun g => if g.1 = k then (g.1, g.2 ++ [row]) else g)

/-- One iteration of the grouping loop in `everysalealbmrl.main`, with
`fuzzywuzzy.fuzz.ratio` supplied as the `ratio` oracle (an integer
percentage 0..100).  Returns the updated groups and whether the
multiple-match warning was logged. -/
def addTxn (ratio : String → String → Nat) (groups : Groups) (row : Txn) :
    Groups × Bool :=
  let key : GroupKey := (row.saleprice, row.saledate1, row.currowner)
  if (groups.lookup key).isSome then (appendToGroup groups key row, false)
  else
    let similar_keys := (groups.map Prod.fst).filter (fun k =>
      k.1 == row.saleprice && k.2.1 == row.saledate1
        && decide (95 ≤ ratio k.2.2 row.currowner))
    match similar_keys with
    | [k] => (appendToGroup groups k row, false)
    | [] => (groups ++ [(key, [row])], false)
    | _ => (groups ++ [(key, [row])], true)

/-- The whole grouping pass over `to_post`. -/
def groupTxns (ratio : String → String → Nat) (rows : List Txn) : Groups :=
  rows.foldl (fun groups row => (addTxn ratio groups row).1) []

end Albemarle

/-! ## Ledger evolution

The ledger-relevant view of a run: the shelf contents and the trace of
publish attempts.  `LedgerEvolves` captures how any segment of a run moves
this view: publish attempts are appended to the trace; a key has an entry
afterwards exactly when it had one before or a successful publish for it
was appended; keys that already had entries are never republished and
keep their entries unchanged; and a key with no new successful publish
keeps whatever entry state it had. -/

/-- The ledger view of an everysalecville run state. -/
def Everysale.RunState.ledger (st : Everysale.RunState) :
    List (String × Everysale.Post) × List PubCall :=
  (st.shelf, st.calls)

/-- The ledger view of an everypermitcville run state. -/
def Everypermit.RunState.ledger (st : Everypermit.RunState) :
    List (String × Everypermit.Post) × List PubCall :=
  (st.shelf, st.calls)

/-- How a run segment may change the ledger view. -/
def LedgerEvolves {β : Type} (s1 s2 : List (String × β) × List PubCall) : Prop :=
  ∃ new, s2.2 = s1.2 ++ new
    ∧ (∀ key, ((s2.1.lookup key).isSome
        ↔ ((s1.1.lookup key).isSome ∨ ∃ c ∈ new, c.key = key ∧ c.ok = true)))
    ∧ (∀ key, (s1.1.lookup key).isSome →
        s2.1.lookup key = s1.1.lookup key ∧ ∀ c ∈ new, c.key ≠ key)
    ∧ (∀ key, (∀ c ∈ new, ¬(c.key = key ∧ c.ok = true)) →
        s2.1.lookup key = s1.1.lookup key)

/-! ## Spec-shaped status decomposition

A second rendering of the everysalecville status text that follows the
wording of the spec (section 4.3): a deterministic core template plus
optional clauses, each guarded by the stated condition.  Claim C8 is the
refinement theorem comparing `get_status` against this decomposition. -/

/-- The address, as the spec's "address" field. -/
def address_spec (properties : ParcelProps) : String :=
  if properties.Unit ≠ "" then
    properties.StreetNumber ++ " " ++ properties.StreetName ++ " Unit " ++ properties.Unit
  else properties.StreetNumber ++ " " ++ properties.StreetName

/-- The sold/sold-to fragment. -/
def sold_detail_spec (properties : ParcelProps) : String :=
  if is_probable_business properties.OwnerName then "sold to " ++ properties.OwnerName
  else "sold"

/-- The unconditional core template of a sale status. -/
def status_core_spec (sale : PrevSaleRec) (properties : ParcelProps) : String :=
  address_spec properties ++ ", " ++ sold_detail_spec properties ++ " on "
    ++ dateStr sale.SaleDate ++ " for $" ++ intcomma sale.SaleAmount ++ ". Zoned "
    ++ properties.Zoning ++ ", assessed at $" ++ intcomma properties.Assessment ++ "."

/-- The price-per-square-foot clause: present exactly when the group has a
single parcel and the square footage is known (nonzero). -/
def pps_clause_spec (sale : PrevSaleRec) (group_count : Nat) (env : StatusEnv) : String :=
  match env.squareFeet with
  | some square_feet =>
    if group_count = 1 ∧ square_feet ≠ 0 then
      " $" ++ intcomma (pyRound sale.SaleAmount square_feet) ++ " per square foot."
    else ""
  | none => ""

/-- The "Parcel i of N" clause: present exactly when the group has more
than one parcel. -/
def group_clause_spec (group_count index : Nat) : String :=
  if 1 < group_count then
    " Parcel " ++ toString (index + 1) ++ " of " ++ toString group_count ++ "."
  else ""

/-- The previous-sale clause: present exactly when the group has a single
parcel and a previous sale was found. -/
def prev_clause_spec (group_count : Nat) (env : StatusEnv) : String :=
  if group_count = 1 then
    match env.previousSale with
    | some previous_sale => " " ++ format_previous_sale previous_sale env.previousParcelCount
    | none => ""
  else ""

/-- The historic-overlay clauses. -/
def overlay_clause_spec (env : StatusEnv) : String :=
  (match env.adcDistrict with
   | some adc_district =>
     " " ++ ((adc_district.replace ("ADC District") ("")).trim ++ " ADC"
       ++ (if env.adcContributing then "; contributing structure" else "")) ++ "."
   | none => "")
  ++ (if env.protectedOverlay then " IPP." else "")

/-- The status text as the spec describes it: the core template followed
by each optional clause exactly when its condition holds. -/
def get_status_spec (sale : PrevSaleRec) (group_count index : Nat) (env : StatusEnv)
    (properties : ParcelProps) : String :=
  status_core_spec sale properties ++ pps_clause_spec sale group_count env
    ++ group_clause_spec group_count index ++ prev_clause_spec group_count env
    ++ overlay_clause_spec env

/-! ## Claims -/

/-- Unfolding of `format_message` at a positive detail level. -/
theorem Everypermit.format_message_pos (permit : Everypermit.Permit)
    (permit_details : List (String × String)) (permit_url : String) (max_details : Nat)
    (h : max_details > 0) :
    Everypermit.format_message permit permit_details permit_url max_details
      = Everypermit.message_header permit ++ "\n\n"
          ++ Everypermit.detail_message permit_details max_details ++ "\n\n" ++ permit_url := by
  rw [Everypermit.format_message, if_pos h]; rfl

/-- Unfolding of `format_message` at detail level zero. -/
theorem Everypermit.format_message_zero (permit : Everypermit.Permit)
    (permit_details : List (String × String)) (permit_url : String) :
    Everypermit.format_message permit permit_details permit_url 0
      = Everypermit.message_header permit ++ "\n\n" ++ permit_url := rfl

/-- C7: for every sale record with known price, date, and parcel count,
`format_previous_sale` produces the exact expected text: with sale amount
123456, a 2024 sale date and `parcel_count = 1` it returns
"Last sold in 2024 for $123,456.", with `parcel_count = 3` it returns
"Last sold in 2024 for $123,456 (3 parcels)." — and in general the
"(N parcels)" suffix appears exactly when `parcel_count > 1`. -/
theorem c7_format_previous_sale_exact :
    format_previous_sale ⟨1727740800000, 123456⟩ 1 = "Last sold in 2024 for $123,456."
  ∧ format_previous_sale ⟨1727740800000, 123456⟩ 3 =
      "Last sold in 2024 for $123,456 (3 parcels)."
  ∧ ∀ (sale : PrevSaleRec) (parcel_count : Nat),
      (1 < parcel_count →
        format_previous_sale sale parcel_count =
          "Last sold in " ++ toString (yearOfMs sale.SaleDate) ++ " for $"
            ++ intcomma sale.SaleAmount ++ " (" ++ toString parcel_count ++ " parcels)" ++ ".")
      ∧ (parcel_count ≤ 1 →
        format_previous_sale sale parcel_count =
          "Last sold in " ++ toString (yearOfMs sale.SaleDate) ++ " for $"
            ++ intcomma sale.SaleAmount ++ ".") := by
  refine ⟨by decide, by decide, fun sale parcel_count => ⟨fun h => ?_, fun h => ?_⟩⟩
  · simp [format_previous_sale, h]
  · have : ¬ parcel_count > 1 := by omega
    simp [format_previous_sale, this]

/-- Witness for C7: the suffix case of the general statement applied at a
concrete five-parcel prior sale. -/
theorem c7_witness :
    1 < 5 ∧ format_previous_sale ⟨1727740800000, 123456⟩ 5 =
      "Last sold in " ++ toString (yearOfMs 1727740800000) ++ " for $"
        ++ intcomma 123456 ++ " (" ++ toString 5 ++ " parcels)" ++ "." :=
  ⟨by decide, (c7_format_previous_sale_exact.2.2 ⟨1727740800000, 123456⟩ 5).1 (by decide)⟩

/-- The zero-detail message is never longer than the message at any other
detail level: the detail block and its separator can only add length. -/
theorem Everypermit.format_message_zero_le (permit : Everypermit.Permit)
    (permit_details : List (String × String)) (permit_url : String) (max_details : Nat) :
    (Everypermit.format_message permit permit_details permit_url 0).length
      ≤ (Everypermit.format_message permit permit_details permit_url max_details).length := by
  cases max_details with
  | zero => exact le_refl _
  | succ n =>
    rw [Everypermit.format_message_zero,
      Everypermit.format_message_pos permit permit_details permit_url (n + 1) (Nat.succ_pos n)]
    simp only [String.length_append]
    omega

/-- A message returned by the `while True` loop fits in the limit. -/
theorem Everypermit.build_message_some_le (permit : Everypermit.Permit)
    (permit_details : List (String × String)) (permit_url : String) :
    ∀ (max_details : Nat) (m : String),
      Everypermit.build_message permit permit_details permit_url max_details = some m →
      m.length ≤ Everypermit.MAX_POST_LENGTH := by
  intro max_details
  induction max_details with
  | zero =>
    intro m hm
    by_cases hlen : (Everypermit.format_message permit permit_details permit_url 0).length
        ≤ Everypermit.MAX_POST_LENGTH
    · simp only [Everypermit.build_message, if_pos hlen, Option.some_inj] at hm
      exact hm ▸ hlen
    · simp only [Everypermit.build_message, if_neg hlen] at hm
      exact absurd hm (by simp)
  | succ n ih =>
    intro m hm
    by_cases hlen : (Everypermit.format_message permit permit_details permit_url (n + 1)).length
        ≤ Everypermit.MAX_POST_LENGTH
    · simp only [Everypermit.build_message, if_pos hlen, Option.some_inj] at hm
      exact hm ▸ hlen
    · simp only [Everypermit.build_message, if_neg hlen] at hm
      exact ih m hm

/-- The loop asserts (returns no message) exactly when every detail level
up to the starting one yields a message over the limit. -/
theorem Everypermit.build_message_none_iff (permit : Everypermit.Permit)
    (permit_details : List (String × String)) (permit_url : String) :
    ∀ max_details : Nat,
      Everypermit.build_message permit permit_details permit_url max_details = none ↔
        ∀ j, j ≤ max_details →
          Everypermit.MAX_POST_LENGTH
            < (Everypermit.format_message permit permit_details permit_url j).length := by
  intro max_details
  induction max_details with
  | zero =>
    by_cases hlen : (Everypermit.format_message permit permit_details permit_url 0).length
        ≤ Everypermit.MAX_POST_LENGTH
    · simp only [Everypermit.build_message, if_pos hlen]
      constructor
      · intro hm; exact absurd hm (by simp)
      · intro hall; exact absurd (hall 0 (le_refl 0)) (by omega)
    · simp only [Everypermit.build_message, if_neg hlen]
      constructor
      · intro _ j hj
        have hj0 : j = 0 := Nat.le_zero.mp hj
        subst hj0; omega
      · intro _; trivial
  | succ n ih =>
    by_cases hlen : (Everypermit.format_message permit permit_details permit_url (n + 1)).length
        ≤ Everypermit.MAX_POST_LENGTH
    · simp only [Everypermit.build_message, if_pos hlen]
      constructor
      · intro hm; exact absurd hm (by simp)
      · intro hall; exact absurd (hall (n + 1) (le_refl _)) (by omega)
    · simp only [Everypermit.build_message, if_neg hlen]
      rw [ih]
      constructor
      · intro hall j hj
        by_cases hj2 : j ≤ n
        · exact hall j hj2
        · have hj3 : j = n + 1 := by omega
          subst hj3; omega
      · intro hall j hj
        exact hall j (Nat.le_trans hj (Nat.le_succ n))

/-- A returned message is the formatted message at the largest detail
level (at most the starting one) that fits in the limit. -/
theorem Everypermit.build_message_some_shape (permit : Everypermit.Permit)
    (permit_details : List (String × String)) (permit_url : String) :
    ∀ (max_details : Nat) (m : String),
      Everypermit.build_message permit permit_details permit_url max_details = some m →
      ∃ i, i ≤ max_details
        ∧ m = Everypermit.format_message permit permit_details permit_url i
        ∧ ∀ j, i < j → j ≤ max_details →
            Everypermit.MAX_POST_LENGTH
              < (Everypermit.format_message permit permit_details permit_url j).length := by
  intro max_details
  induction max_details with
  | zero =>
    intro m hm
    by_cases hlen : (Everypermit.format_message permit permit_details permit_url 0).length
        ≤ Everypermit.MAX_POST_LENGTH
    · simp only [Everypermit.build_message, if_pos hlen, Option.some_inj] at hm
      exact ⟨0, le_refl 0, hm.symm, fun j hj1 hj2 => absurd (Nat.lt_of_lt_of_le hj1 hj2) (by omega)⟩
    · simp only [Everypermit.build_message, if_neg hlen] at hm
      exact absurd hm (by simp)
  | succ n ih =>
    intro m hm
    by_cases hlen : (Everypermit.format_message permit permit_details permit_url (n + 1)).length
        ≤ Everypermit.MAX_POST_LENGTH
    · simp only [Everypermit.build_message, if_pos hlen, Option.some_inj] at hm
      exact ⟨n + 1, le_refl _, hm.symm,
        fun j hj1 hj2 => absurd (Nat.lt_of_lt_of_le hj1 hj2) (by omega)⟩
    · simp only [Everypermit.build_message, if_neg hlen] at hm
      obtain ⟨i, hi, hmi, hall⟩ := ih m hm
      refine ⟨i, Nat.le_trans hi (Nat.le_succ n), hmi, fun j hj1 hj2 => ?_⟩
      by_cases hj3 : j ≤ n
      · exact hall j hj1 hj3
      · have hj4 : j = n + 1 := by omega
        subst hj4; omega

/-- C3: for every permit, the message-building loop starts at
`MAX_MAX_DETAILS = 5` and decrements the detail level one at a time until
the message fits in `MAX_POST_LENGTH = 300`: any message it posts is the
formatted message at the largest fitting detail level (hence never over
300 characters), and the loop fails its assertion instead of posting
exactly when even the zero-detail message is over 300 characters. -/
theorem c3_message_length_loop :
    ∀ (permit : Everypermit.Permit) (permit_details : List (String × String))
      (permit_url : String),
      (∀ m, Everypermit.build_message permit permit_details permit_url
            Everypermit.MAX_MAX_DETAILS = some m →
          m.length ≤ Everypermit.MAX_POST_LENGTH
          ∧ ∃ i, i ≤ Everypermit.MAX_MAX_DETAILS
              ∧ m = Everypermit.format_message permit permit_details permit_url i
              ∧ ∀ j, i < j → j ≤ Everypermit.MAX_MAX_DETAILS →
                  Everypermit.MAX_POST_LENGTH
                    < (Everypermit.format_message permit permit_details permit_url j).length)
      ∧ (Everypermit.build_message permit permit_details permit_url
            Everypermit.MAX_MAX_DETAILS = none ↔
          Everypermit.MAX_POST_LENGTH
            < (Everypermit.format_message permit permit_details permit_url 0).length) := by
  intro permit permit_details permit_url
  refine ⟨fun m hm => ⟨Everypermit.build_message_some_le permit permit_details permit_url _ m hm,
    Everypermit.build_message_some_shape permit permit_details permit_url _ m hm⟩, ?_⟩
  rw [Everypermit.build_message_none_iff]
  constructor
  · intro hall; exact hall 0 (Nat.zero_le _)
  · intro h0 j _
    exact Nat.lt_of_lt_of_le h0
      (Everypermit.format_message_zero_le permit permit_details permit_url j)

/-- Witness for C3: a small permit whose message fits at the full detail
level, so the loop returns it and the bound holds. -/
theorem c3_witness :
    Everypermit.build_message ⟨"B25-0001", "Building", "Building", "100 MAIN ST"⟩
        [("Cost", "10000")] ("https://permits.example/1") Everypermit.MAX_MAX_DETAILS
      = some ("B25-0001: Building @ 100 MAIN ST\n\nCost: 10000\n\nhttps://permits.example/1")
    ∧ ("B25-0001: Building @ 100 MAIN ST\n\nCost: 10000\n\nhttps://permits.example/1").length
        ≤ Everypermit.MAX_POST_LENGTH :=
  ⟨by decide,
   ((c3_message_length_loop ⟨"B25-0001", "Building", "Building", "100 MAIN ST"⟩
      [("Cost", "10000")] ("https://permits.example/1")).1 _ (by decide)).1⟩

/-- Any buffer returned by the compression loop is strictly under the
ceiling. -/
theorem compress_loop_some_lt (encode : Int → Nat) (max_size : Nat) (min_quality : Int) :
    ∀ (quality : Int) (out : Nat),
      compress_loop encode max_size min_quality quality = some out → out < max_size := by
  suffices h : ∀ (n : Nat) (quality : Int), (quality - min_quality + 10).toNat ≤ n →
      ∀ out, compress_loop encode max_size min_quality quality = some out → out < max_size by
    intro q out; exact h _ q (le_refl _) out
  intro n
  induction n with
  | zero =>
    intro q hq out hout
    rw [compress_loop, if_neg (by omega : ¬ min_quality ≤ q)] at hout
    exact absurd hout (by simp)
  | succ n ih =>
    intro q hq out hout
    rw [compress_loop] at hout
    by_cases h1 : min_quality ≤ q
    · rw [if_pos h1] at hout
      by_cases h2 : encode q < max_size
      · rw [if_pos h2, Option.some_inj] at hout
        exact hout ▸ h2
      · rw [if_neg h2] at hout
        exact ih (q - 10) (by omega) out hout
    · rw [if_neg h1] at hout
      exact absurd hout (by simp)

/-- The compression loop raises (returns nothing) exactly when every
quality level it visits — the values `90, 80, …` down to the floor —
encodes to at least the ceiling. -/
theorem compress_loop_none_iff (encode : Int → Nat) (max_size : Nat) (min_quality : Int) :
    ∀ quality : Int,
      compress_loop encode max_size min_quality quality = none ↔
        ∀ r : Int, min_quality ≤ r → r ≤ quality → (quality - r) % 10 = 0 →
          max_size ≤ encode r := by
  suffices h : ∀ (n : Nat) (quality : Int), (quality - min_quality + 10).toNat ≤ n →
      (compress_loop encode max_size min_quality quality = none ↔
        ∀ r : Int, min_quality ≤ r → r ≤ quality → (quality - r) % 10 = 0 →
          max_size ≤ encode r) by
    intro q; exact h _ q (le_refl _)
  intro n
  induction n with
  | zero =>
    intro q hq
    rw [compress_loop, if_neg (by omega : ¬ min_quality ≤ q)]
    constructor
    · intro _ r hr1 hr2 _; omega
    · intro _; rfl
  | succ n ih =>
    intro q hq
    rw [compress_loop]
    by_cases h1 : min_quality ≤ q
    · rw [if_pos h1]
      by_cases h2 : encode q < max_size
      · rw [if_pos h2]
        constructor
        · intro hm; exact absurd hm (by simp)
        · intro hall; exact absurd (hall q h1 (le_refl q) (by omega)) (by omega)
      · rw [if_neg h2]
        rw [ih (q - 10) (by omega)]
        constructor
        · intro hall r hr1 hr2 hr3
          by_cases hrq : r = q
          · subst hrq; omega
          · exact hall r hr1 (by omega) (by omega)
        · intro hall r hr1 hr2 hr3
          exact hall r hr1 (by omega) (by omega)
    · rw [if_neg h1]
      constructor
      · intro _ r hr1 hr2 _; omega
      · intro _; rfl

/-- C4: for every input buffer, `maybe_compress_image` either returns a
buffer whose size is within the ceiling or raises `ImageTooLarge`
(returns `none`); starting from quality 90 and stepping down by 10, it
raises exactly when the input was over the ceiling and no visited quality
level at or above the floor encodes to a size under the ceiling. -/
theorem c4_maybe_compress_image :
    ∀ (encode : Int → Nat) (in_size : Nat) (min_quality : Int) (max_size : Nat),
      (∀ out, maybe_compress_image encode in_size min_quality max_size = some out →
        out ≤ max_size)
      ∧ (maybe_compress_image encode in_size min_quality max_size = none ↔
          (max_size < in_size
            ∧ ∀ q : Int, min_quality ≤ q → q ≤ 90 → (90 - q) % 10 = 0 →
                max_size ≤ encode q)) := by
  intro encode in_size min_quality max_size
  by_cases h : in_size ≤ max_size
  · constructor
    · intro out hout
      simp only [maybe_compress_image, if_pos h, Option.some_inj] at hout
      exact hout ▸ h
    · simp only [maybe_compress_image, if_pos h]
      constructor
      · intro hm; exact absurd hm (by simp)
      · rintro ⟨h1, -⟩; omega
  · constructor
    · intro out hout
      simp only [maybe_compress_image, if_neg h] at hout
      exact le_of_lt (compress_loop_some_lt encode max_size min_quality 90 out hout)
    · simp only [maybe_compress_image, if_neg h]
      rw [compress_loop_none_iff]
      constructor
      · intro hall; exact ⟨by omega, hall⟩
      · rintro ⟨-, hall⟩; exact hall

/-- Witness for C4: a 1000-byte input with a 700-byte ceiling whose first
re-encoding (quality 90) is 500 bytes, which the function returns and
which the theorem bounds by the ceiling. -/
theorem c4_witness :
    maybe_compress_image (fun _ => 500) 1000 10 700 = some 500 ∧ 500 ≤ 700 := by
  have hEval : maybe_compress_image (fun _ => 500) 1000 10 700 = some 500 := by
    rw [maybe_compress_image, if_neg (by decide), compress_loop, if_pos (by decide),
      if_pos (by decide)]
  exact ⟨hEval, (c4_maybe_compress_image (fun _ => 500) 1000 10 700).1 500 hEval⟩

/-- C6 counterexample: the grouping code merges on `fuzz.ratio(...) >= 95`,
so a record whose owner-name similarity to an existing group is exactly 95
— not above 95 — is merged into that group.  The two owner strings here
(19 × "A" then "B" / 19 × "A" then "C", both length 20) have
`fuzz.ratio = round(100·2·19/40) = 95` under fuzzywuzzy, which the `ratio`
oracle reproduces; the claim "similarity ratio above a fixed threshold of
95%" would keep the second record in its own group, but the code places it
in the first record's group. -/
theorem c6_counterexample :
    Albemarle.groupTxns (fun a b => if a = b then 100 else 95)
        [⟨350000, 1700000000, "AAAAAAAAAAAAAAAAAAAB", "P1"⟩,
         ⟨350000, 1700000000, "AAAAAAAAAAAAAAAAAAAC", "P2"⟩]
      = [((350000, 1700000000, "AAAAAAAAAAAAAAAAAAAB"),
          [⟨350000, 1700000000, "AAAAAAAAAAAAAAAAAAAB", "P1"⟩,
           ⟨350000, 1700000000, "AAAAAAAAAAAAAAAAAAAC", "P2"⟩])]
    ∧ (fun (a b : String) => if a = b then 100 else 95) ("AAAAAAAAAAAAAAAAAAAB")
        ("AAAAAAAAAAAAAAAAAAAC") = 95
    ∧ ¬ (95 > 95) := by decide

/-- C6 (amended): grouping merges a record into an existing group exactly
on equality of (price, date) and owner-name similarity ratio of at least
95 (the threshold is met at exactly 95); when the record's own key is
absent and more than one existing group matches, the warning flag is set
and the record starts its own group. -/
theorem c6_amended_grouping :
    ∀ (ratio : String → String → Nat) (groups : Albemarle.Groups) (row : Albemarle.Txn)
      (key : Albemarle.GroupKey) (similar_keys : List Albemarle.GroupKey),
      key = (row.saleprice, row.saledate1, row.currowner) →
      similar_keys = (groups.map Prod.fst).filter (fun k =>
        k.1 == row.saleprice && k.2.1 == row.saledate1
          && decide (95 ≤ ratio k.2.2 row.currowner)) →
      ((groups.lookup key).isSome →
        Albemarle.addTxn ratio groups row = (Albemarle.appendToGroup groups key row, false))
      ∧ (∀ k, (groups.lookup key).isSome = false → similar_keys = [k] →
          Albemarle.addTxn ratio groups row = (Albemarle.appendToGroup groups k row, false)
          ∧ k.1 = row.saleprice ∧ k.2.1 = row.saledate1 ∧ 95 ≤ ratio k.2.2 row.currowner)
      ∧ ((groups.lookup key).isSome = false → similar_keys.length ≠ 1 →
          (Albemarle.addTxn ratio groups row).1 = groups ++ [(key, [row])]
          ∧ ((Albemarle.addTxn ratio groups row).2 = true ↔ 1 < similar_keys.length)) := by
  intro ratio groups row key similar_keys hkey hsim
  subst hkey
  refine ⟨?_, ?_, ?_⟩
  · intro hk
    simp only [Albemarle.addTxn, if_pos hk]
  · intro k hk hsk
    subst hsim
    have hkmem : k ∈ (groups.map Prod.fst).filter (fun k =>
        k.1 == row.saleprice && k.2.1 == row.saledate1
          && decide (95 ≤ ratio k.2.2 row.currowner)) := by
      rw [hsk]; exact List.mem_singleton.mpr rfl
    have hpred := (List.mem_filter.mp hkmem).2
    simp only [Bool.and_eq_true, beq_iff_eq, decide_eq_true_eq] at hpred
    have hne : ¬ (groups.lookup (row.saleprice, row.saledate1, row.currowner)).isSome = true := by
      simp [hk]
    constructor
    · simp only [Albemarle.addTxn, if_neg hne]
      rw [hsk]
    · exact ⟨hpred.1.1, hpred.1.2, hpred.2⟩
  · intro hk hlen
    subst hsim
    have hne : ¬ (groups.lookup (row.saleprice, row.saledate1, row.currowner)).isSome = true := by
      simp [hk]
    simp only [Albemarle.addTxn, if_neg hne]
    rcases hsk : (groups.map Prod.fst).filter (fun k =>
        k.1 == row.saleprice && k.2.1 == row.saledate1
          && decide (95 ≤ ratio k.2.2 row.currowner)) with - | ⟨a, - | ⟨b, l⟩⟩
    · rw [hsk]
      refine ⟨rfl, ?_⟩
      simp
    · rw [hsk] at hlen
      simp at hlen
    · rw [hsk]
      refine ⟨rfl, ?_⟩
      simp only [List.length_cons]
      constructor
      · intro _; omega
      · intro _; trivial

/-- Witness for C6 (amended): a record whose exact key is new but which
matches one existing group on price, date and a 97% owner similarity is
merged into that group without a warning. -/
theorem c6_amended_witness :
    Albemarle.addTxn (fun _ _ => 97)
        [((100, 5, "OWNER ONE LLC"), [⟨100, 5, "OWNER ONE LLC", "Q1"⟩])]
        ⟨100, 5, "OWNER ONE LC", "Q2"⟩
      = (Albemarle.appendToGroup
          [((100, 5, "OWNER ONE LLC"), [⟨100, 5, "OWNER ONE LLC", "Q1"⟩])]
          (100, 5, "OWNER ONE LLC") ⟨100, 5, "OWNER ONE LC", "Q2"⟩, false)
    ∧ (100 : Int) = 100 ∧ (5 : Int) = 5
    ∧ 95 ≤ (fun (_ _ : String) => 97) ("OWNER ONE LLC") ("OWNER ONE LC") :=
  ((c6_amended_grouping (fun _ _ => 97)
      [((100, 5, "OWNER ONE LLC"), [⟨100, 5, "OWNER ONE LLC", "Q1"⟩])]
      ⟨100, 5, "OWNER ONE LC", "Q2"⟩ _ _ rfl rfl).2.1
    (100, 5, "OWNER ONE LLC") (by decide) (by decide))

/-- C8: every status built by `get_status` is the core template followed
by the optional clauses exactly under the stated conditions: the
price-per-square-foot clause only for single-parcel groups with known
square footage, the "Parcel i of N" suffix only for multi-parcel groups,
and the previous-sale clause only for single-parcel groups (never together
with the suffix — the two guards are mutually exclusive by construction of
`group_clause_spec` and `prev_clause_spec`). -/
theorem c8_status_optional_clauses :
    ∀ (sale : PrevSaleRec) (group_count index : Nat) (env : StatusEnv)
      (properties : ParcelProps),
      env.detailses = [properties] → 1 ≤ group_count → env.squareFeet ≠ some 0 →
      get_status sale group_count index env
        = .ok (get_status_spec sale group_count index env properties,
               address_spec properties) := by
  intro sale group_count index env properties hdet hgc hsq
  obtain ⟨ds, sqft, prev, prevCount, adc, contrib, prot⟩ := env
  dsimp only at hdet hsq ⊢
  subst hdet
  rcases Nat.lt_or_ge 1 group_count with h1 | h1
  · have hne1 : ¬ group_count = 1 := by omega
    cases sqft <;> cases prev <;> cases adc <;> cases contrib <;> cases prot <;>
      simp [get_status, get_status_spec, status_core_spec, address_spec, sold_detail_spec,
        pps_clause_spec, group_clause_spec, prev_clause_spec, overlay_clause_spec,
        h1, hne1, ← String.append_assoc, String.append_empty]
  · have hgc1 : group_count = 1 := by omega
    subst hgc1
    cases sqft with
    | none =>
      cases prev <;> cases adc <;> cases contrib <;> cases prot <;>
        simp [get_status, get_status_spec, status_core_spec, address_spec, sold_detail_spec,
          pps_clause_spec, group_clause_spec, prev_clause_spec, overlay_clause_spec,
          ← String.append_assoc, String.append_empty]
    | some n =>
      have hn : n ≠ 0 := by simpa using hsq
      cases prev <;> cases adc <;> cases contrib <;> cases prot <;>
        simp [get_status, get_status_spec, status_core_spec, address_spec, sold_detail_spec,
          pps_clause_spec, group_clause_spec, prev_clause_spec, overlay_clause_spec,
          hn, ← String.append_assoc, String.append_empty]

/-- Witness for C8: a concrete single-parcel sale with known square
footage, a previous sale and overlay data, at which `get_status` equals
the spec-shaped decomposition. -/
theorem c8_witness :
    get_status ⟨1727740800000, 500000⟩ 1 0
        ⟨[⟨"212", "E MAIN ST", "", 400000, "ACME HOLDINGS LLC", "D"⟩], some 1500,
          some ⟨1262304000000, 250000⟩, 2, some ("North Downtown ADC District"), true, true⟩
      = .ok (get_status_spec ⟨1727740800000, 500000⟩ 1 0
              ⟨[⟨"212", "E MAIN ST", "", 400000, "ACME HOLDINGS LLC", "D"⟩], some 1500,
                some ⟨1262304000000, 250000⟩, 2, some ("North Downtown ADC District"), true, true⟩
              ⟨"212", "E MAIN ST", "", 400000, "ACME HOLDINGS LLC", "D"⟩,
             address_spec ⟨"212", "E MAIN ST", "", 400000, "ACME HOLDINGS LLC", "D"⟩) :=
  c8_status_optional_clauses ⟨1727740800000, 500000⟩ 1 0
    ⟨[⟨"212", "E MAIN ST", "", 400000, "ACME HOLDINGS LLC", "D"⟩], some 1500,
      some ⟨1262304000000, 250000⟩, 2, some ("North Downtown ADC District"), true, true⟩
    ⟨"212", "E MAIN ST", "", 400000, "ACME HOLDINGS LLC", "D"⟩ rfl (by decide) (by decide)

/-- C9: the owner's name flows into the status only through the
sold-to clause, which is guarded by `is_probable_business`; so for any two
non-business owner names and otherwise identical record data both
`get_status` and the everylotcville previous-sale formatter produce
identical text (the individual's name does not flow into the output). -/
theorem c9_owner_noninterference :
    (∀ (sale : PrevSaleRec) (group_count index : Nat) (env : StatusEnv)
       (properties : ParcelProps) (owner : String),
      env.detailses = [properties] →
      is_probable_business properties.OwnerName = false →
      is_probable_business owner = false →
      get_status sale group_count index env
        = get_status sale group_count index
            { env with detailses := [{ properties with OwnerName := owner }] })
    ∧ (∀ (properties : ParcelProps) (owner : String) (sale : PrevSaleRec)
         (parcel_count : Nat),
      is_probable_business properties.OwnerName = false →
      is_probable_business owner = false →
      Everylot.format_previous_sale properties sale parcel_count
        = Everylot.format_previous_sale { properties with OwnerName := owner }
            sale parcel_count) := by
  constructor
  · intro sale group_count index env properties owner hdet hb1 hb2
    obtain ⟨ds, sqft, prev, prevCount, adc, contrib, prot⟩ := env
    dsimp only at hdet ⊢
    subst hdet
    simp [get_status, hb1, hb2]
  · intro properties owner sale parcel_count hb1 hb2
    simp [Everylot.format_previous_sale, hb1, hb2]

/-- Witness for C9: two concrete non-business owners (an individual name
swapped for another individual name) yield identical status text. -/
theorem c9_witness :
    get_status ⟨1727740800000, 500000⟩ 1 0
        ⟨[⟨"212", "E MAIN ST", "", 400000, "SMITH JOHN", "D"⟩], none, none, 0, none,
          false, false⟩
      = get_status ⟨1727740800000, 500000⟩ 1 0
          ⟨[⟨"212", "E MAIN ST", "", 400000, "DOE JANE", "D"⟩], none, none, 0, none,
            false, false⟩ :=
  c9_owner_noninterference.1 ⟨1727740800000, 500000⟩ 1 0
    ⟨[⟨"212", "E MAIN ST", "", 400000, "SMITH JOHN", "D"⟩], none, none, 0, none,
      false, false⟩
    ⟨"212", "E MAIN ST", "", 400000, "SMITH JOHN", "D"⟩ ("DOE JANE") rfl
    (by decide) (by decide)

/-- Lookup in a ledger after inserting at the front. -/
theorem lookup_cons_isSome {β : Type} (k a : String) (v : β) (l : List (String × β)) :
    (List.lookup a ((k, v) :: l)).isSome = true
      ↔ (a = k ∨ (List.lookup a l).isSome = true) := by
  by_cases h : a = k
  · subst h; simp [List.lookup]
  · have hb : (a == k) = false := beq_eq_false_iff_ne.mpr h
    simp [List.lookup, hb, h]

/-- Lookup in a ledger is unchanged by inserting a different key. -/
theorem lookup_cons_ne {β : Type} (k a : String) (v : β) (l : List (String × β))
    (h : a ≠ k) : List.lookup a ((k, v) :: l) = List.lookup a l := by
  have hb : (a == k) = false := beq_eq_false_iff_ne.mpr h
  simp [List.lookup, hb]

/-- A run segment that does nothing evolves the ledger. -/
theorem ledgerEvolves_refl {β : Type} (s : List (String × β) × List PubCall) :
    LedgerEvolves s s := by
  refine ⟨[], by simp, fun key => by simp, fun key hk => ⟨rfl, by simp⟩, fun key _ => rfl⟩

/-- Ledger evolution composes. -/
theorem ledgerEvolves_trans {β : Type} {a b c : List (String × β) × List PubCall}
    (hab : LedgerEvolves a b) (hbc : LedgerEvolves b c) : LedgerEvolves a c := by
  obtain ⟨n1, h1, h2, h3, h4⟩ := hab
  obtain ⟨m1, g1, g2, g3, g4⟩ := hbc
  refine ⟨n1 ++ m1, by rw [g1, h1, List.append_assoc], ?_, ?_, ?_⟩
  · intro key
    rw [g2 key, h2 key]
    simp only [List.mem_append]
    constructor
    · rintro ((h | ⟨ca, hca, hp⟩) | ⟨cb, hcb, hp⟩)
      · exact Or.inl h
      · exact Or.inr ⟨ca, Or.inl hca, hp⟩
      · exact Or.inr ⟨cb, Or.inr hcb, hp⟩
    · rintro (h | ⟨ca, hca | hca, hp⟩)
      · exact Or.inl (Or.inl h)
      · exact Or.inl (Or.inr ⟨ca, hca, hp⟩)
      · exact Or.inr ⟨ca, hca, hp⟩
  · intro key hk
    obtain ⟨e1, e2⟩ := h3 key hk
    have hbk : (b.1.lookup key).isSome := by rw [e1]; exact hk
    obtain ⟨f1, f2⟩ := g3 key hbk
    refine ⟨by rw [f1, e1], ?_⟩
    intro cc hc
    rcases List.mem_append.mp hc with h | h
    · exact e2 cc h
    · exact f2 cc h
  · intro key hnone
    have hn1 : ∀ cc ∈ n1, ¬(cc.key = key ∧ cc.ok = true) :=
      fun cc hc => hnone cc (List.mem_append_left _ hc)
    have hm1 : ∀ cc ∈ m1, ¬(cc.key = key ∧ cc.ok = true) :=
      fun cc hc => hnone cc (List.mem_append_right _ hc)
    rw [g4 key hm1, h4 key hn1]

/-- A successful publish of a fresh key inserts its entry and appends a
successful call. -/
theorem ledgerEvolves_publish_success {β : Type} (shelf : List (String × β))
    (calls : List PubCall) (key text : String) (v : β)
    (hlk : shelf.lookup key = none) :
    LedgerEvolves (shelf, calls) ((key, v) :: shelf, calls ++ [⟨key, text, true⟩]) := by
  refine ⟨[⟨key, text, true⟩], rfl, ?_, ?_, ?_⟩
  · intro k2
    rw [lookup_cons_isSome]
    simp only [List.mem_singleton]
    constructor
    · rintro (h | h)
      · exact Or.inr ⟨⟨key, text, true⟩, rfl, h.symm, rfl⟩
      · exact Or.inl h
    · rintro (h | ⟨c, rfl, hk, -⟩)
      · exact Or.inr h
      · exact Or.inl hk.symm
  · intro k2 hk2
    have hne : k2 ≠ key := by
      intro h; rw [h, hlk] at hk2; simp at hk2
    refine ⟨lookup_cons_ne key k2 v shelf hne, ?_⟩
    intro c hc
    rw [List.mem_singleton.mp hc]
    exact fun h => hne h.symm
  · intro k2 hno
    have hne : k2 ≠ key := by
      intro h
      exact hno ⟨key, text, true⟩ (List.mem_singleton.mpr rfl) ⟨h.symm, rfl⟩
    exact lookup_cons_ne key k2 v shelf hne

/-- A failed publish appends a failed call and leaves the shelf alone. -/
theorem ledgerEvolves_publish_failure {β : Type} (shelf : List (String × β))
    (calls : List PubCall) (key text : String)
    (hlk : shelf.lookup key = none) :
    LedgerEvolves (shelf, calls) (shelf, calls ++ [⟨key, text, false⟩]) := by
  refine ⟨[⟨key, text, false⟩], rfl, ?_, ?_, ?_⟩
  · intro k2
    simp only [List.mem_singleton]
    constructor
    · intro h; exact Or.inl h
    · rintro (h | ⟨c, rfl, -, hok⟩)
      · exact h
      · exact absurd hok (by simp)
  · intro k2 hk2
    have hne : k2 ≠ key := by
      intro h; rw [h, hlk] at hk2; simp at hk2
    refine ⟨rfl, ?_⟩
    intro c hc
    rw [List.mem_singleton.mp hc]
    exact fun h => hne h.symm
  · intro _ _; rfl

/-- One everysalecville sale iteration that returns evolves the ledger. -/
theorem processSale_ok_evolves (st : Everysale.RunState) (thread : Option Nat × Option Nat)
    (item : Everysale.SaleItem) (st2 : Everysale.RunState) (th2 : Option Nat × Option Nat)
    (heq : Everysale.processSale st thread item = .ok (st2, th2)) :
    LedgerEvolves st.ledger st2.ledger := by
  simp only [Everysale.processSale] at heq
  rcases hlk : List.lookup (item.ParcelNumber ++ "::" ++ item.BookPage) st.shelf with - | entry
  · simp only [hlk] at heq
    by_cases hsa : item.SaleAmount = 0
    · simp only [if_pos hsa, Except.ok.injEq, Prod.mk.injEq] at heq
      obtain ⟨rfl, -⟩ := heq
      exact ledgerEvolves_refl _
    · simp only [if_neg hsa] at heq
      rcases hsr : item.statusResult with - | sa
      · simp only [hsr] at heq
        rcases hsv : st.statusVar with - | sa2
        · simp only [hsv] at heq
          exact absurd heq (by simp)
        · simp only [hsv] at heq
          by_cases hpub : item.publishOk
          · simp only [if_pos hpub, Except.ok.injEq, Prod.mk.injEq] at heq
            obtain ⟨heqs, -⟩ := heq
            subst heqs
            rw [Everysale.RunState.ledger, hpub]
            exact ledgerEvolves_publish_success st.shelf st.calls
              (item.ParcelNumber ++ "::" ++ item.BookPage) sa2.1 _ hlk
          · simp only [if_neg hpub] at heq
            exact absurd heq (by simp)
      · simp only [hsr] at heq
        by_cases hpub : item.publishOk
        · simp only [if_pos hpub, Except.ok.injEq, Prod.mk.injEq] at heq
          obtain ⟨heqs, -⟩ := heq
          subst heqs
          rw [Everysale.RunState.ledger, hpub]
          exact ledgerEvolves_publish_success st.shelf st.calls
            (item.ParcelNumber ++ "::" ++ item.BookPage) sa.1 _ hlk
        · simp only [if_neg hpub] at heq
          exact absurd heq (by simp)
  · simp only [hlk, Except.ok.injEq, Prod.mk.injEq] at heq
    obtain ⟨rfl, -⟩ := heq
    exact ledgerEvolves_refl _

/-- One everysalecville sale iteration that raises evolves the ledger. -/
theorem processSale_error_evolves (st : Everysale.RunState) (thread : Option Nat × Option Nat)
    (item : Everysale.SaleItem) (st2 : Everysale.RunState)
    (heq : Everysale.processSale st thread item = .error st2) :
    LedgerEvolves st.ledger st2.ledger := by
  simp only [Everysale.processSale] at heq
  rcases hlk : List.lookup (item.ParcelNumber ++ "::" ++ item.BookPage) st.shelf with - | entry
  · simp only [hlk] at heq
    by_cases hsa : item.SaleAmount = 0
    · simp only [if_pos hsa] at heq
      exact absurd heq (by simp)
    · simp only [if_neg hsa] at heq
      rcases hsr : item.statusResult with - | sa
      · simp only [hsr] at heq
        rcases hsv : st.statusVar with - | sa2
        · simp only [hsv, Except.error.injEq] at heq
          subst heq
          exact ledgerEvolves_refl _
        · simp only [hsv] at heq
          by_cases hpub : item.publishOk
          · simp only [if_pos hpub] at heq
            exact absurd heq (by simp)
          · simp only [if_neg hpub, Except.error.injEq] at heq
            subst heq
            rw [Bool.not_eq_true] at hpub
            rw [Everysale.RunState.ledger, hpub]
            exact ledgerEvolves_publish_failure st.shelf st.calls
              (item.ParcelNumber ++ "::" ++ item.BookPage) sa2.1 hlk
      · simp only [hsr] at heq
        by_cases hpub : item.publishOk
        · simp only [if_pos hpub] at heq
          exact absurd heq (by simp)
        · simp only [if_neg hpub, Except.error.injEq] at heq
          subst heq
          rw [Bool.not_eq_true] at hpub
          rw [Everysale.RunState.ledger, hpub]
          exact ledgerEvolves_publish_failure st.shelf st.calls
            (item.ParcelNumber ++ "::" ++ item.BookPage) sa.1 hlk
  · simp only [hlk] at heq
    exact absurd heq (by simp)

/-- A group's inner loop evolves the ledger, however it ends. -/
theorem processSales_evolves :
    ∀ (items : List Everysale.SaleItem) (st : Everysale.RunState)
      (thread : Option Nat × Option Nat),
      LedgerEvolves st.ledger (endState (Everysale.processSales st thread items)).ledger := by
  intro items
  induction items with
  | nil =>
    intro st thread
    exact ledgerEvolves_refl _
  | cons item rest ih =>
    intro st thread
    rcases hps : Everysale.processSale st thread item with st2 | ⟨st2, th2⟩
    · have hrw : Everysale.processSales st thread (item :: rest) = .error st2 := by
        simp [Everysale.processSales, hps]
      rw [hrw]
      exact processSale_error_evolves st thread item st2 hps
    · have hrw : Everysale.processSales st thread (item :: rest)
          = Everysale.processSales st2 th2 rest := by
        simp [Everysale.processSales, hps]
      rw [hrw]
      exact ledgerEvolves_trans (processSale_ok_evolves st thread item st2 th2 hps) (ih st2 th2)

/-- The outer group loop evolves the ledger, however it ends. -/
theorem processGroups_evolves :
    ∀ (groups : List (List Everysale.SaleItem)) (st : Everysale.RunState),
      LedgerEvolves st.ledger (endState (Everysale.processGroups st groups)).ledger := by
  intro groups
  induction groups with
  | nil =>
    intro st
    exact ledgerEvolves_refl _
  | cons g rest ih =>
    intro st
    rcases hpg : Everysale.processGroup st g with st2 | st2
    · have hrw : Everysale.processGroups st (g :: rest) = .error st2 := by
        simp [Everysale.processGroups, hpg]
      rw [hrw]
      have : LedgerEvolves st.ledger st2.ledger := by
        have h2 := processSales_evolves
          (Everysale.insertionSort (fun a b => a.ParcelNumber ≤ b.ParcelNumber) g) st
          (none, none)
        rw [Everysale.processGroup] at hpg
        rw [hpg] at h2
        exact h2
      exact this
    · have hrw : Everysale.processGroups st (g :: rest) = Everysale.processGroups st2 rest := by
        simp [Everysale.processGroups, hpg]
      rw [hrw]
      have h1 : LedgerEvolves st.ledger st2.ledger := by
        have h2 := processSales_evolves
          (Everysale.insertionSort (fun a b => a.ParcelNumber ≤ b.ParcelNumber) g) st
          (none, none)
        rw [Everysale.processGroup] at hpg
        rw [hpg] at h2
        exact h2
      exact ledgerEvolves_trans h1 (ih st2)

/-- A whole everysalecville run evolves the ledger from the on-disk shelf
and an empty call trace. -/
theorem everysale_main_evolves (shelf0 : List (String × Everysale.Post))
    (sales : List Everysale.SaleItem) :
    LedgerEvolves (shelf0, ([] : List PubCall))
      (endState (Everysale.main shelf0 sales)).ledger :=
  processGroups_evolves (Everysale.groupByBookPage sales) ⟨shelf0, 0, 0, none, []⟩

/-- One everypermitcville permit iteration that returns evolves the
ledger. -/
theorem processPermit_ok_evolves (st : Everypermit.RunState) (item : Everypermit.PermitItem)
    (st2 : Everypermit.RunState)
    (heq : Everypermit.processPermit st item = .ok st2) :
    LedgerEvolves st.ledger st2.ledger := by
  simp only [Everypermit.processPermit] at heq
  rcases hlk : List.lookup item.Id st.shelf with - | entry
  · simp only [hlk] at heq
    rcases hbm : Everypermit.build_message item.permit item.details item.url
        Everypermit.MAX_MAX_DETAILS with - | message
    · simp only [hbm] at heq
      exact absurd heq (by simp)
    · simp only [hbm] at heq
      by_cases hpub : item.publishOk = true
      · simp only [if_pos hpub, Except.ok.injEq] at heq
        subst heq
        rw [Everypermit.RunState.ledger, hpub]
        exact ledgerEvolves_publish_success st.shelf st.calls item.Id message _ hlk
      · simp only [if_neg hpub] at heq
        exact absurd heq (by simp)
  · simp only [hlk, Except.ok.injEq] at heq
    subst heq
    exact ledgerEvolves_refl _

/-- One everypermitcville permit iteration that raises evolves the
ledger. -/
theorem processPermit_error_evolves (st : Everypermit.RunState)
    (item : Everypermit.PermitItem) (st2 : Everypermit.RunState)
    (heq : Everypermit.processPermit st item = .error st2) :
    LedgerEvolves st.ledger st2.ledger := by
  simp only [Everypermit.processPermit] at heq
  rcases hlk : List.lookup item.Id st.shelf with - | entry
  · simp only [hlk] at heq
    rcases hbm : Everypermit.build_message item.permit item.details item.url
        Everypermit.MAX_MAX_DETAILS with - | message
    · simp only [hbm, Except.error.injEq] at heq
      subst heq
      exact ledgerEvolves_refl _
    · simp only [hbm] at heq
      by_cases hpub : item.publishOk = true
      · simp only [if_pos hpub] at heq
        exact absurd heq (by simp)
      · simp only [if_neg hpub, Except.error.injEq] at heq
        subst heq
        rw [Bool.not_eq_true] at hpub
        rw [Everypermit.RunState.ledger, hpub]
        exact ledgerEvolves_publish_failure st.shelf st.calls item.Id message hlk
  · simp only [hlk] at heq
    exact absurd heq (by simp)

/-- The permit loop evolves the ledger, however it ends. -/
theorem processPermits_evolves :
    ∀ (items : List Everypermit.PermitItem) (st : Everypermit.RunState),
      LedgerEvolves st.ledger (endState (Everypermit.processPermits st items)).ledger := by
  intro items
  induction items with
  | nil =>
    intro st
    exact ledgerEvolves_refl _
  | cons item rest ih =>
    intro st
    rcases hpp : Everypermit.processPermit st item with st2 | st2
    · have hrw : Everypermit.processPermits st (item :: rest) = .error st2 := by
        simp [Everypermit.processPermits, hpp]
      rw [hrw]
      exact processPermit_error_evolves st item st2 hpp
    · have hrw : Everypermit.processPermits st (item :: rest)
          = Everypermit.processPermits st2 rest := by
        simp [Everypermit.processPermits, hpp]
      rw [hrw]
      exact ledgerEvolves_trans (processPermit_ok_evolves st item st2 hpp) (ih st2)

/-- A whole everypermitcville run evolves the ledger from the on-disk
shelf and an empty call trace. -/
theorem everypermit_main_evolves (shelf0 : List (String × Everypermit.Post))
    (items : List Everypermit.PermitItem) :
    LedgerEvolves (shelf0, ([] : List PubCall))
      (endState (Everypermit.main shelf0 items)).ledger :=
  processPermits_evolves items ⟨shelf0, []⟩

/-- C1: in both bots, a run's final ledger has an entry for a key iff the
key already had one or the run's publish trace contains a successful
publish for it; the write happens only after a successful publish, and
when no successful publish for the key occurred (in particular when the
publish for it failed and aborted the run) the ledger is unchanged at that
key. -/
theorem c1_ledger_iff_published :
    (∀ (shelf0 : List (String × Everysale.Post)) (sales : List Everysale.SaleItem)
       (key : String),
      (((endState (Everysale.main shelf0 sales)).shelf.lookup key).isSome
        ↔ ((shelf0.lookup key).isSome
            ∨ ∃ c ∈ (endState (Everysale.main shelf0 sales)).calls,
                c.key = key ∧ c.ok = true))
      ∧ ((∀ c ∈ (endState (Everysale.main shelf0 sales)).calls,
            ¬(c.key = key ∧ c.ok = true)) →
          (endState (Everysale.main shelf0 sales)).shelf.lookup key = shelf0.lookup key))
    ∧ (∀ (shelf0 : List (String × Everypermit.Post)) (items : List Everypermit.PermitItem)
       (key : String),
      (((endState (Everypermit.main shelf0 items)).shelf.lookup key).isSome
        ↔ ((shelf0.lookup key).isSome
            ∨ ∃ c ∈ (endState (Everypermit.main shelf0 items)).calls,
                c.key = key ∧ c.ok = true))
      ∧ ((∀ c ∈ (endState (Everypermit.main shelf0 items)).calls,
            ¬(c.key = key ∧ c.ok = true)) →
          (endState (Everypermit.main shelf0 items)).shelf.lookup key
            = shelf0.lookup key)) := by
  constructor
  · intro shelf0 sales key
    obtain ⟨new, hcalls, hiff, -, hnc⟩ := everysale_main_evolves shelf0 sales
    simp only [Everysale.RunState.ledger, List.nil_append] at hcalls hiff hnc
    constructor
    · rw [hcalls]
      exact hiff key
    · intro hno
      rw [hcalls] at hno
      exact hnc key hno
  · intro shelf0 items key
    obtain ⟨new, hcalls, hiff, -, hnc⟩ := everypermit_main_evolves shelf0 items
    simp only [Everypermit.RunState.ledger, List.nil_append] at hcalls hiff hnc
    constructor
    · rw [hcalls]
      exact hiff key
    · intro hno
      rw [hcalls] at hno
      exact hnc key hno

/-- Witness for C1: an empty run makes no successful publish for "K", so
the ledger at "K" is unchanged. -/
theorem c1_witness :
    (endState (Everysale.main [] [])).shelf.lookup ("K")
      = (([] : List (String × Everysale.Post)).lookup ("K")) :=
  ((c1_ledger_iff_published.1 [] [] ("K")).2) (by decide)

/-- C2: in both bots, a key already present in the ledger at the start of
a run is skipped: the run issues no publish call for it and its entry is
untouched, so posting is idempotent across runs. -/
theorem c2_ledger_key_skipped :
    (∀ (shelf0 : List (String × Everysale.Post)) (sales : List Everysale.SaleItem)
       (key : String),
      (shelf0.lookup key).isSome →
      (endState (Everysale.main shelf0 sales)).shelf.lookup key = shelf0.lookup key
      ∧ ∀ c ∈ (endState (Everysale.main shelf0 sales)).calls, c.key ≠ key)
    ∧ (∀ (shelf0 : List (String × Everypermit.Post)) (items : List Everypermit.PermitItem)
       (key : String),
      (shelf0.lookup key).isSome →
      (endState (Everypermit.main shelf0 items)).shelf.lookup key = shelf0.lookup key
      ∧ ∀ c ∈ (endState (Everypermit.main shelf0 items)).calls, c.key ≠ key) := by
  constructor
  · intro shelf0 sales key hk
    obtain ⟨new, hcalls, -, hkeep, -⟩ := everysale_main_evolves shelf0 sales
    simp only [Everysale.RunState.ledger, List.nil_append] at hcalls hkeep
    obtain ⟨e1, e2⟩ := hkeep key hk
    refine ⟨e1, ?_⟩
    rw [hcalls]
    exact e2
  · intro shelf0 items key hk
    obtain ⟨new, hcalls, -, hkeep, -⟩ := everypermit_main_evolves shelf0 items
    simp only [Everypermit.RunState.ledger, List.nil_append] at hcalls hkeep
    obtain ⟨e1, e2⟩ := hkeep key hk
    refine ⟨e1, ?_⟩
    rw [hcalls]
    exact e2

/-- Witness for C2: a run over no sales leaves the pre-existing entry for
"K::B" untouched and makes no call for it. -/
theorem c2_witness :
    (endState (Everysale.main [("K::B", ⟨"K", "B", 0, none, none⟩)] [])).shelf.lookup ("K::B")
        = ([("K::B", ⟨"K", "B", 0, none, none⟩)].lookup ("K::B"))
    ∧ ∀ c ∈ (endState (Everysale.main [("K::B", ⟨"K", "B", 0, none, none⟩)] [])).calls,
        c.key ≠ "K::B" :=
  c2_ledger_key_skipped.1 [("K::B", ⟨"K", "B", 0, none, none⟩)] [] ("K::B") (by decide)

/-- C5 (code bug): in `everysalecville.main` the `except` around
`get_status` only logs — there is no `continue` — so a record whose status
build fails is NOT skipped.  In this two-record run the second record's
`get_status` raises (`statusResult = none`), yet because the Python locals
`status, address` still hold the first record's values, the second record
is published with the FIRST record's status text and then written to the
ledger — contradicting "the record is skipped and never written to the
ledger".  (Had the failure hit the first record, the unbound locals would
raise `NameError` and abort the whole run rather than continue.) -/
theorem c5_failed_status_still_posts :
    ((endState (Everysale.main []
        [⟨"A", "1:1", 100, some ("status one", "addr one"), true⟩,
         ⟨"B", "2:2", 200, none, true⟩])).shelf.lookup ("B::2:2")).isSome = true
    ∧ (endState (Everysale.main []
        [⟨"A", "1:1", 100, some ("status one", "addr one"), true⟩,
         ⟨"B", "2:2", 200, none, true⟩])).calls
      = [⟨"A::1:1", "status one", true⟩, ⟨"B::2:2", "status one", true⟩] := by
  decide

/-- C10: for every permit, every detail dict, every URL and every
`max_details` value (in particular 0 through 5), the message built by
`format_message` ends with — hence contains as a contiguous substring —
the permit URL, so the `message.index(permit_url)` lookup used to build
the link facet always succeeds. -/
theorem c10_format_message_contains_url :
    ∀ (permit : Everypermit.Permit) (permit_details : List (String × String))
      (permit_url : String) (max_details : Nat),
      ∃ pre, Everypermit.format_message permit permit_details permit_url max_details
        = pre ++ permit_url := by
  intro permit permit_details permit_url max_details
  cases max_details with
  | zero =>
    rw [Everypermit.format_message_zero]
    exact ⟨_, rfl⟩
  | succ n =>
    rw [Everypermit.format_message_pos permit permit_details permit_url (n + 1) (Nat.succ_pos n)]
    exact ⟨_, rfl⟩

end UrbanistBots
